import Mathlib

/-!
Shallow embedding of `src/calibre/model/adaptive_ensemble.py` (repository
Makkar/calibre): the adaptive-ensemble model with tail-free priors, its
dimension checks, the flat-ensemble weight helper, and the posterior
sampling functions.  Machine floats are modelled by exact rationals;
random draws (edward2 random variables, which are value-traced by name)
are modelled by an explicit environment mapping a declared variable name
to its drawn value; `tf.exp` and the sparse-softmax link function are
modelled as explicit function parameters since their numeric bodies live
outside this module.  Functions that can raise return `Except PyErr`;
declared-random-variable names are accumulated in order in a list so
that "declared before/after" statements are expressible.
-/

namespace Calibre

/-- A vector of float values over the evaluation points, as exact rationals. -/
abbrev Vec := List ℚ

/-- A matrix, stored as a list of rows. -/
abbrev Mat := List (List ℚ)

/-- A rank-3 array, stored as a list of matrices. -/
abbrev Arr3 := List Mat

/-- The family tree: a mapping (insertion-ordered, as a Python dict) from a
parent-node name to the ordered list of its children names. -/
abbrev FamilyTree := List (String × List String)

/-- Python exceptions raised by the module. -/
inductive PyErr where
  | valueError (msg : String)
  | notImplementedError
  deriving Repr, DecidableEq

/-- Dot product of two rows, `sum (zipWith mul)`. -/
def dotQ (a b : Vec) : ℚ := (List.zipWith (fun x y => x * y) a b).sum

/-- Elementwise sum of two vectors (`tensor + tensor` on equal shapes). -/
def addVec (a b : Vec) : Vec := List.zipWith (fun x y => x + y) a b

/-- Elementwise product of two vectors. -/
def mulVec (a b : Vec) : Vec := List.zipWith (fun x y => x * y) a b

/-- The all-ones vector of length `n`. -/
def onesVec (n : ℕ) : Vec := List.replicate n 1

/-- Stack `k` vectors of length `n` into an `(n, k)` matrix: row `i` collects
entry `i` of each vector.  This models both `tf.stack(vs, axis=1)` and
`np.asarray(vs).T` for a list of 1-D arrays. -/
def stackT (cols : List Vec) (n : ℕ) : Mat :=
  (List.range n).map (fun i => cols.map (fun c => c.getD i 0))

/-- Row-wise reduce-sum of an elementwise product:
`tf.reduce_sum(tf.multiply(f, w), axis=1)` for two `(n, k)` matrices. -/
def rowSumProduct (f w : Mat) : Vec := List.zipWith dotQ f w

/-- Column `j` of a matrix (missing entries default to `0`). -/
def colOf (m : Mat) (j : ℕ) : Vec := m.map (fun row => row.getD j 0)

/-- The trace environment: the drawn value of every named random variable.
Vector-valued draws (GPs) and scalar draws (temperatures, noise) are kept
in separate maps, mirroring their shapes in the source. -/
structure Env where
  vec : String → Vec
  scal : String → ℚ

/-- Association-list lookup of a vector-valued entry, mirroring Python dict
subscripting (`d[k]`); absent keys default to the empty vector. -/
def lookupVec (d : List (String × Vec)) (k : String) : Vec :=
  ((d.find? (fun kv => kv.1 == k)).map (fun kv => kv.2)).getD []

/-- Association-list lookup of a matrix-valued entry. -/
def lookupMat (d : List (String × Mat)) (k : String) : Mat :=
  ((d.find? (fun kv => kv.1 == k)).map (fun kv => kv.2)).getD []

/-- Association-list lookup of a scalar entry. -/
def lookupScal (d : List (String × ℚ)) (k : String) : ℚ :=
  ((d.find? (fun kv => kv.1 == k)).map (fun kv => kv.2)).getD 0

/-- Python truthiness of the optional `family_tree` argument: `None` and the
empty dict are falsy, a non-empty dict is truthy. -/
def truthy : Option FamilyTree → Bool
  | none => false
  | some t => !t.isEmpty

/-- The per-model weight-GP names declared by `sparse_conditional_weight`:
one per entry of `base_pred`, named `base_weight_<model name>` in dict
order (the comprehension variable shadows the list, so each individual
model name is formatted in). -/
def flatWeightNames (basePred : List (String × Vec)) : List String :=
  basePred.map (fun kv => "base_weight_" ++ kv.1)

/-- Embedding of `sparse_conditional_weight` (adaptive_ensemble.py:24-83).
Raises `NotImplementedError` when the family tree is truthy; otherwise
declares one weight-GP prior per base model, stacks the raw draws on
axis 1 into an `(n, k)` matrix and applies `link_func` to it at
temperature `exp(temp)`.  Returns the declared GP names together with
the result. -/
def sparse_conditional_weight (n : ℕ) (basePred : List (String × Vec)) (temp : ℚ)
    (familyTree : Option FamilyTree) (linkFunc : Mat → ℚ → Mat) (pexp : ℚ → ℚ)
    (env : Env) : List String × Except PyErr Mat :=
  if truthy familyTree then ([], Except.error PyErr.notImplementedError)
  else
    let declNames := flatWeightNames basePred
    let wRaw := stackT (declNames.map env.vec) n
    (declNames, Except.ok (linkFunc wRaw (pexp temp)))

/-- The `ValueError` message raised by the dimension check of `model_flat`
and `model_tailfree` (the source's two adjacent string literals
concatenate without a space, hence `butobserved`). -/
def dimErrMsg (n obsLen : ℕ) (key : String) : String :=
  "All base-model predictions should have shape (" ++ toString n ++
    ",), butobserved (" ++ toString obsLen ++ ",) for \x27" ++ key ++ "\x27"

/-- The dimension check at the top of `model_flat` and `model_tailfree`:
iterate over `base_pred` in dict order and raise at the first value whose
shape is not `(n,)`, naming the offending key in the message. -/
def checkBasePred (n : ℕ) (basePred : List (String × Vec)) : Except PyErr Unit :=
  match basePred.find? (fun kv => kv.2.length != n) with
  | some kv => Except.error (PyErr.valueError (dimErrMsg n kv.2.length kv.1))
  | none => Except.ok ()

/-- Embedding of `ed.MultivariateNormalDiag(loc, scale_identity_multiplier)`:
the declared observation distribution, recording its mean vector and its
scalar scale multiplier. -/
structure MVNDiag where
  loc : Vec
  scaleIdentityMultiplier : ℚ

/-- Covariance entry `(i, j)` of a `MultivariateNormalDiag` with a scalar
identity multiplier `s`: the covariance matrix is `s^2` times the
identity. -/
def MVNDiag.cov (d : MVNDiag) (i j : ℕ) : ℚ :=
  if i = j then d.scaleIdentityMultiplier * d.scaleIdentityMultiplier else 0

/-- Embedding of `model_flat` (adaptive_ensemble.py:91-157): dimension check,
then the `temp` draw, the flat conditional weights, the ensemble mean
`reduce_sum(F * W, axis=1)`, the residual GP draw, the noise draw
`sigma`, and the observation `y ~ MVNDiag(mean + resid, exp(sigma))`.
The first component lists the names of the random variables declared so
far, in order. -/
def model_flat (n : ℕ) (basePred : List (String × Vec))
    (familyTree : Option FamilyTree) (linkFunc : Mat → ℚ → Mat) (pexp : ℚ → ℚ)
    (env : Env) : List String × Except PyErr MVNDiag :=
  match checkBasePred n basePred with
  | Except.error e => ([], Except.error e)
  | Except.ok _ =>
    let temp := env.scal "temp"
    match sparse_conditional_weight n basePred temp familyTree linkFunc pexp env with
    | (ds, Except.error e) => ("temp" :: ds, Except.error e)
    | (ds, Except.ok w) =>
      let f := stackT (basePred.map (fun kv => kv.2)) n
      let ensembleMean := rowSumProduct f w
      let ensembleResid := env.vec "ensemble_resid"
      let sigma := env.scal "sigma"
      ("temp" :: ds ++ ["ensemble_resid", "sigma", "y"],
       Except.ok { loc := addVec ensembleMean ensembleResid,
                   scaleIdentityMultiplier := pexp sigma })

/-- Modelled from the spec: the reserved root-node name of the family tree
(`tail_free.ROOT_NODE_DEFAULT_NAME`, whose module is outside this
repository snapshot); both the spec and the example drivers use the name
`root`. -/
def ROOT_NODE_DEFAULT_NAME : String := "root"

/-- The ordered children of a node, `none` when the node is not a key of
the tree mapping (i.e. when the node is a leaf). -/
def childrenOf (tree : FamilyTree) (p : String) : Option (List String) :=
  (tree.find? (fun kv => kv.1 == p)).map (fun kv => kv.2)

/-- Modelled from the spec: `tail_free.compute_cond_weights` (module missing
from the snapshot).  For each parent of the tree, stack its children's
raw weight vectors in the order the children appear, into an
`(n, num_children)` matrix, and apply `link_func(stacked, exp(temp_parent))`
to obtain that parent's conditional-weight matrix. -/
def compute_cond_weights (n : ℕ) (tree : FamilyTree) (raw : String → Vec)
    (ptemp : String → ℚ) (linkFunc : Mat → ℚ → Mat) (pexp : ℚ → ℚ) :
    List (String × Mat) :=
  tree.map (fun pc => (pc.1, linkFunc (stackT (pc.2.map raw) n) (pexp (ptemp pc.1))))

/-- Modelled from the spec: the recursive core of
`tail_free.compute_leaf_weights` (module missing from the snapshot).
Starting from a node with an accumulated path weight `acc`, multiply the
conditional-weight column of each child into the accumulator and recurse
depth-first, children in their tree order; a node that is not a key of
the tree is a leaf and yields its accumulated weight.  `fuel` bounds the
recursion depth (any bound at least the tree's depth gives the same
result). -/
def leafWeightsFrom (tree : FamilyTree) (cond : String → Mat) :
    ℕ → String → Vec → List (String × Vec)
  | 0, node, acc =>
    match childrenOf tree node with
    | none => [(node, acc)]
    | some _ => []
  | fuel + 1, node, acc =>
    match childrenOf tree node with
    | none => [(node, acc)]
    | some cs =>
      ((List.range cs.length).map (fun j =>
        leafWeightsFrom tree cond fuel (cs.getD j "")
          (mulVec acc (colOf (cond node) j)))).flatten

/-- Modelled from the spec: `tail_free.compute_leaf_weights` (module missing
from the snapshot).  Composes the per-parent conditional weights along
every root-to-leaf path and returns the `(n, num_leaves)` leaf-weight
matrix together with the leaf names in column order. -/
def compute_leaf_weights (n : ℕ) (nodeWeights : List (String × Mat))
    (tree : FamilyTree) : Mat × List String :=
  let leaves := leafWeightsFrom tree (lookupMat nodeWeights) tree.length
      ROOT_NODE_DEFAULT_NAME (onesVec n)
  ((List.range n).map (fun i => leaves.map (fun lv => lv.2.getD i 0)),
   leaves.map (fun lv => lv.1))

/-- Modelled from the spec: `tail_free.prior` (module missing from the
snapshot).  Declares one temperature per parent node and one weight-GP
per non-root node (named by prefixing the node name), computes the
conditional weights of every parent and composes them into the leaf
weights; returns the declared names with the leaf-weight matrix and the
ordered leaf names. -/
def tailfreePrior (n : ℕ) (tree : FamilyTree)
    (linkFunc : Mat → ℚ → Mat) (pexp : ℚ → ℚ) (env : Env) :
    List String × (Mat × List String) :=
  let tempDecls := tree.map (fun pc => "temp_" ++ pc.1)
  let weightDecls := ((tree.map (fun pc => pc.2)).flatten).map
      (fun nd => "base_weight_" ++ nd)
  let raw := fun nd => env.vec ("base_weight_" ++ nd)
  let ptemp := fun p => env.scal ("temp_" ++ p)
  let cond := compute_cond_weights n tree raw ptemp linkFunc pexp
  (tempDecls ++ weightDecls, compute_leaf_weights n cond tree)

/-- Embedding of `model_tailfree` (adaptive_ensemble.py:160-219): dimension
check, tail-free prior over ensemble weights, base predictions reordered
to the returned leaf names, ensemble mean `reduce_sum(F * W, axis=1)`,
residual GP draw, noise draw `sigma`, and the observation
`y ~ MVNDiag(mean + resid, exp(sigma))`. -/
def model_tailfree (n : ℕ) (basePred : List (String × Vec)) (tree : FamilyTree)
    (linkFunc : Mat → ℚ → Mat) (pexp : ℚ → ℚ) (env : Env) :
    List String × Except PyErr MVNDiag :=
  match checkBasePred n basePred with
  | Except.error e => ([], Except.error e)
  | Except.ok _ =>
    let pr := tailfreePrior n tree linkFunc pexp env
    let baseModels := stackT (pr.2.2.map (lookupVec basePred)) n
    let ensembleMean := rowSumProduct baseModels pr.2.1
    let ensembleResid := env.vec "ensemble_resid"
    let sigma := env.scal "sigma"
    (pr.1 ++ ["ensemble_resid", "sigma", "y"],
     Except.ok { loc := addVec ensembleMean ensembleResid,
                 scaleIdentityMultiplier := pexp sigma })

/-- The weight-sample argument of `sample_posterior_weight_flat`: either a
Python list of per-model `(N_sample, N_obs)` matrices or an ndarray
already of shape `(N_sample, N_obs, K)`. -/
inductive WSample where
  | asList (ws : List Mat)
  | asArray (ws : Arr3)

/-- `np.moveaxis(a, 0, -1)` on a rank-3 array of shape `(k, s, o)`: the
result `(s, o, k)` satisfies `result[i][j][m] = a[m][i][j]`. -/
def moveaxisLast (a : Arr3) : Arr3 :=
  let s := (a.getD 0 []).length
  let o := ((a.getD 0 []).getD 0 []).length
  (List.range s).map (fun i => (List.range o).map (fun j =>
    a.map (fun m => (m.getD i []).getD j 0)))

/-- The `ValueError` message of `sample_posterior_weight_flat`. -/
def wsErrMsg (dim0 nSample : ℕ) : String :=
  "Sample size of weight_sample (dim=" ++ toString dim0 ++
    ") doesn\x27t match that of the temp_sample (" ++ toString nSample ++ ")"

/-- Embedding of `sample_posterior_weight_flat` (adaptive_ensemble.py:227-263).
Reads the sample count off `temp_sample`; when the weight sample comes as
a list it is converted (`moveaxis` to put the model axis last) and its
leading dimension checked against the sample count; an ndarray input is
used as-is with no check.  The link function is applied to the weights
at temperature `exp(temp_sample)` (elementwise). -/
def sample_posterior_weight_flat (weightSample : WSample) (tempSample : Vec)
    (linkFunc3 : Arr3 → Vec → Arr3) (pexp : ℚ → ℚ) : Except PyErr Arr3 :=
  let nSample := tempSample.length
  match weightSample with
  | WSample.asList ws =>
    let moved := moveaxisLast ws
    if moved.length != nSample then
      Except.error (PyErr.valueError (wsErrMsg moved.length nSample))
    else
      Except.ok (linkFunc3 moved (tempSample.map pexp))
  | WSample.asArray ws => Except.ok (linkFunc3 ws (tempSample.map pexp))

/-- Embedding of `sample_posterior_tailfree` (adaptive_ensemble.py:302-374):
computes the conditional weights of every parent from the supplied raw
weight and temperature draws, composes them into leaf weights, reorders
the base predictions to the leaf names, takes the weighted sum as the
posterior mean and adds the residual draw for the full posterior sample.
Returns, in order: full posterior sample, posterior mean, leaf-weight
matrix, conditional-weight dict, ordered leaf names. -/
def sample_posterior_tailfree (n : ℕ) (basePredDict : List (String × Vec))
    (familyTree : FamilyTree) (weightGpDict : List (String × Vec))
    (tempDict : List (String × ℚ)) (residGpSample : Vec)
    (linkFunc : Mat → ℚ → Mat) (pexp : ℚ → ℚ) :
    Vec × Vec × Mat × List (String × Mat) × List String :=
  let condDict := compute_cond_weights n familyTree (lookupVec weightGpDict)
      (lookupScal tempDict) linkFunc pexp
  let lw := compute_leaf_weights n condDict familyTree
  let baseModelPred := stackT (lw.2.map (lookupVec basePredDict)) n
  let ensembleMean := rowSumProduct baseModelPred lw.1
  let ensembleSample := addVec ensembleMean residGpSample
  (ensembleSample, ensembleMean, lw.1, condDict, lw.2)

/-! Shared helper lemmas about the list-level linear algebra. -/

lemma stackT_length (cols : List Vec) (n : ℕ) : (stackT cols n).length = n := by
  simp [stackT]

lemma stackT_getD (cols : List Vec) {n i : ℕ} (h : i < n) :
    (stackT cols n).getD i [] = cols.map (fun c => c.getD i 0) := by
  have hl : i < (stackT cols n).length := by simpa [stackT_length] using h
  rw [List.getD_eq_getElem _ _ hl]
  simp [stackT]

lemma stackT_row_length (cols : List Vec) {n : ℕ} (row : Vec)
    (h : row ∈ stackT cols n) : row.length = cols.length := by
  simp only [stackT, List.mem_map] at h
  obtain ⟨i, _, rfl⟩ := h
  simp

lemma rowSumProduct_getD (f w : Mat) {i : ℕ} (h1 : i < f.length)
    (h2 : i < w.length) :
    (rowSumProduct f w).getD i 0 = dotQ (f.getD i []) (w.getD i []) := by
  have hl : i < (rowSumProduct f w).length := by
    simp only [rowSumProduct, List.length_zipWith]
    omega
  rw [List.getD_eq_getElem _ _ hl, List.getD_eq_getElem _ _ h1,
    List.getD_eq_getElem _ _ h2]
  exact List.getElem_zipWith ..

lemma addVec_getD (a b : Vec) {i : ℕ} (h1 : i < a.length) (h2 : i < b.length) :
    (addVec a b).getD i 0 = a.getD i 0 + b.getD i 0 := by
  have hl : i < (addVec a b).length := by
    simp only [addVec, List.length_zipWith]
    omega
  rw [List.getD_eq_getElem _ _ hl, List.getD_eq_getElem _ _ h1,
    List.getD_eq_getElem _ _ h2]
  exact List.getElem_zipWith ..

lemma mulVec_getD (a b : Vec) {i : ℕ} (h1 : i < a.length) (h2 : i < b.length) :
    (mulVec a b).getD i 0 = a.getD i 0 * b.getD i 0 := by
  have hl : i < (mulVec a b).length := by
    simp only [mulVec, List.length_zipWith]
    omega
  rw [List.getD_eq_getElem _ _ hl, List.getD_eq_getElem _ _ h1,
    List.getD_eq_getElem _ _ h2]
  exact List.getElem_zipWith ..

lemma mulVec_length (a b : Vec) : (mulVec a b).length = min a.length b.length :=
  List.length_zipWith ..

lemma colOf_length (m : Mat) (j : ℕ) : (colOf m j).length = m.length := by
  simp [colOf]

lemma colOf_getD (m : Mat) {i : ℕ} (j : ℕ) (h : i < m.length) :
    (colOf m j).getD i 0 = (m.getD i []).getD j 0 := by
  have hl : i < (colOf m j).length := by simpa [colOf_length] using h
  rw [List.getD_eq_getElem _ _ hl, List.getD_eq_getElem _ _ h]
  simp [colOf]

lemma checkBasePred_ok {n : ℕ} {basePred : List (String × Vec)}
    (h : ∀ kv ∈ basePred, kv.2.length = n) :
    checkBasePred n basePred = Except.ok () := by
  have : basePred.find? (fun kv => kv.2.length != n) = none := by
    rw [List.find?_eq_none]
    intro kv hkv
    simpa using h kv hkv
  simp [checkBasePred, this]

/-- C9: for `family_tree = None`, `sparse_conditional_weight` declares one
weight-GP prior per entry of `base_pred` — K priors, not the K−1 its
docstring describes — named `base_weight_<model name>` in dict order, and
stacks their draws into an `(N, K)` matrix before applying the link
function. -/
theorem flat_helper_declares_K_weight_gps (n : ℕ)
    (basePred : List (String × Vec)) (temp : ℚ) (linkFunc : Mat → ℚ → Mat)
    (pexp : ℚ → ℚ) (env : Env) :
    (sparse_conditional_weight n basePred temp none linkFunc pexp env).1 =
      basePred.map (fun kv => "base_weight_" ++ kv.1) ∧
    (sparse_conditional_weight n basePred temp none linkFunc pexp env).1.length =
      basePred.length ∧
    (sparse_conditional_weight n basePred temp none linkFunc pexp env).2 =
      Except.ok (linkFunc (stackT ((flatWeightNames basePred).map env.vec) n)
        (pexp temp)) ∧
    (stackT ((flatWeightNames basePred).map env.vec) n).length = n ∧
    ∀ row ∈ stackT ((flatWeightNames basePred).map env.vec) n,
      row.length = basePred.length := by
  refine ⟨rfl, by simp [sparse_conditional_weight, truthy, flatWeightNames],
    rfl, stackT_length .., fun row hrow => ?_⟩
  rw [stackT_row_length _ _ hrow]
  simp [flatWeightNames]

/-- C7: conditional weights are always produced by applying the link
function to the stacked raw weights at temperature `exp(temp)`: both
`sparse_conditional_weight` (flat case) and both input branches of
`sample_posterior_weight_flat` call the link function with the
exponentiated temperature, never the raw one. -/
theorem link_applied_at_exp_temperature (n : ℕ)
    (basePred : List (String × Vec)) (temp : ℚ) (linkFunc : Mat → ℚ → Mat)
    (pexp : ℚ → ℚ) (env : Env) (ws3 : Arr3) (wsl : List Mat) (tempSample : Vec)
    (linkFunc3 : Arr3 → Vec → Arr3)
    (hok : (moveaxisLast wsl).length = tempSample.length) :
    (sparse_conditional_weight n basePred temp none linkFunc pexp env).2 =
      Except.ok (linkFunc (stackT ((flatWeightNames basePred).map env.vec) n)
        (pexp temp)) ∧
    sample_posterior_weight_flat (WSample.asArray ws3) tempSample linkFunc3 pexp =
      Except.ok (linkFunc3 ws3 (tempSample.map pexp)) ∧
    sample_posterior_weight_flat (WSample.asList wsl) tempSample linkFunc3 pexp =
      Except.ok (linkFunc3 (moveaxisLast wsl) (tempSample.map pexp)) := by
  refine ⟨rfl, rfl, ?_⟩
  simp [sample_posterior_weight_flat, hok]

/-- Witness for C7 at a concrete input: one model, one sample point. -/
theorem link_applied_at_exp_temperature_witness :
    (sparse_conditional_weight 1 [("a", [0])] 0 none (fun m _ => m) (fun q => q)
        ⟨fun _ => [0], fun _ => 0⟩).2 =
      Except.ok ((fun (m : Mat) (_ : ℚ) => m)
        (stackT ((flatWeightNames [("a", [0])]).map
          (Env.vec ⟨fun _ => [0], fun _ => 0⟩)) 1) ((fun q => q) 0)) ∧
    sample_posterior_weight_flat (WSample.asArray [[[0]]]) [0]
        (fun a _ => a) (fun q => q) =
      Except.ok ((fun (a : Arr3) (_ : Vec) => a) [[[0]]] ([0].map (fun q => q))) ∧
    sample_posterior_weight_flat (WSample.asList [[[0]]]) [0]
        (fun a _ => a) (fun q => q) =
      Except.ok ((fun (a : Arr3) (_ : Vec) => a) (moveaxisLast [[[0]]])
        ([0].map (fun q => q))) :=
  link_applied_at_exp_temperature 1 [("a", [0])] 0 (fun m _ => m) (fun q => q)
    ⟨fun _ => [0], fun _ => 0⟩ [[[0]]] [[[0]]] [0] (fun a _ => a) (by decide)

/-- C4: a truthy (non-empty) family tree makes `sparse_conditional_weight`
raise `NotImplementedError` before declaring any weight GP, and makes
`model_flat` (when its dimension check passes) fail at model-construction
time with that error, having declared only the temperature. -/
theorem flat_helper_not_implemented_on_tree (n : ℕ)
    (basePred : List (String × Vec)) (temp : ℚ) (tree : FamilyTree)
    (linkFunc : Mat → ℚ → Mat) (pexp : ℚ → ℚ) (env : Env)
    (htree : tree ≠ [])
    (hdim : ∀ kv ∈ basePred, kv.2.length = n) :
    sparse_conditional_weight n basePred temp (some tree) linkFunc pexp env =
      ([], Except.error PyErr.notImplementedError) ∧
    model_flat n basePred (some tree) linkFunc pexp env =
      (["temp"], Except.error PyErr.notImplementedError) := by
  have ht : truthy (some tree) = true := by
    simp [truthy, List.isEmpty_iff, htree]
  constructor
  · simp [sparse_conditional_weight, ht]
  · simp [model_flat, checkBasePred_ok hdim, sparse_conditional_weight, ht]

/-- Witness for C4 at a concrete input: two base models of matching length
and a one-node family tree. -/
theorem flat_helper_not_implemented_on_tree_witness :
    sparse_conditional_weight 1 [("a", [2]), ("b", [3])] 0
        (some [("root", ["a", "b"])]) (fun m _ => m) (fun q => q)
        ⟨fun _ => [0], fun _ => 0⟩ =
      ([], Except.error PyErr.notImplementedError) ∧
    model_flat 1 [("a", [2]), ("b", [3])] (some [("root", ["a", "b"])])
        (fun m _ => m) (fun q => q) ⟨fun _ => [0], fun _ => 0⟩ =
      (["temp"], Except.error PyErr.notImplementedError) :=
  flat_helper_not_implemented_on_tree 1 [("a", [2]), ("b", [3])] 0
    [("root", ["a", "b"])] (fun m _ => m) (fun q => q)
    ⟨fun _ => [0], fun _ => 0⟩ (by decide) (by decide)

/-- C3: both `model_flat` and `model_tailfree` run the per-model dimension
check first: as soon as some `base_pred` value does not have shape
`(N,)` (first offender in dict order), they return the `ValueError`
whose message names the offending model's key, with no random variable
declared and no `y` produced (no silent broadcast or truncation). -/
theorem dimension_check_names_offending_model (n : ℕ)
    (basePred : List (String × Vec)) (kv0 : String × Vec)
    (otree : Option FamilyTree) (tree : FamilyTree)
    (linkFunc : Mat → ℚ → Mat) (pexp : ℚ → ℚ) (env : Env)
    (h : basePred.find? (fun kv => kv.2.length != n) = some kv0) :
    model_flat n basePred otree linkFunc pexp env =
      ([], Except.error (PyErr.valueError (dimErrMsg n kv0.2.length kv0.1))) ∧
    model_tailfree n basePred tree linkFunc pexp env =
      ([], Except.error (PyErr.valueError (dimErrMsg n kv0.2.length kv0.1))) ∧
    ∃ p q, dimErrMsg n kv0.2.length kv0.1 = p ++ kv0.1 ++ q := by
  refine ⟨?_, ?_, ⟨_, "\x27", rfl⟩⟩
  · simp [model_flat, checkBasePred, h]
  · simp [model_tailfree, checkBasePred, h]

/-- Witness for C3: two models at one evaluation point, the second model's
prediction has length 2. -/
theorem dimension_check_names_offending_model_witness :
    model_flat 1 [("a", [2]), ("bad", [3, 4])] none (fun m _ => m) (fun q => q)
        ⟨fun _ => [0], fun _ => 0⟩ =
      ([], Except.error (PyErr.valueError (dimErrMsg 1 2 "bad"))) ∧
    model_tailfree 1 [("a", [2]), ("bad", [3, 4])] [("root", ["a", "bad"])]
        (fun m _ => m) (fun q => q) ⟨fun _ => [0], fun _ => 0⟩ =
      ([], Except.error (PyErr.valueError (dimErrMsg 1 2 "bad"))) ∧
    ∃ p q, dimErrMsg 1 2 "bad" = p ++ "bad" ++ q :=
  dimension_check_names_offending_model 1 [("a", [2]), ("bad", [3, 4])]
    ("bad", [3, 4]) none [("root", ["a", "bad"])] (fun m _ => m) (fun q => q)
    ⟨fun _ => [0], fun _ => 0⟩ (by decide)

/-- C10: `sample_posterior_weight_flat` validates the sample dimension only
on the Python-list input branch, raising `ValueError` there when the
converted array's leading dimension differs from `temp_sample`'s length;
an ndarray input of any shape bypasses validation and goes straight to
the link function. -/
theorem weight_flat_check_only_for_list_input (wsl : List Mat) (ws3 : Arr3)
    (tempSample : Vec) (linkFunc3 : Arr3 → Vec → Arr3) (pexp : ℚ → ℚ)
    (hmis : (moveaxisLast wsl).length ≠ tempSample.length) :
    sample_posterior_weight_flat (WSample.asList wsl) tempSample linkFunc3 pexp =
      Except.error (PyErr.valueError
        (wsErrMsg (moveaxisLast wsl).length tempSample.length)) ∧
    sample_posterior_weight_flat (WSample.asArray ws3) tempSample linkFunc3 pexp =
      Except.ok (linkFunc3 ws3 (tempSample.map pexp)) := by
  constructor
  · simp [sample_posterior_weight_flat, hmis]
  · rfl

/-- Witness for C10: one listed model matrix with a single sample row
against two temperature samples (mismatch raises); an ndarray of the
same mismatched shape passes through unchecked. -/
theorem weight_flat_check_only_for_list_input_witness :
    sample_posterior_weight_flat (WSample.asList [[[5]]]) [0, 0]
        (fun a _ => a) (fun q => q) =
      Except.error (PyErr.valueError (wsErrMsg (moveaxisLast [[[5]]]).length 2)) ∧
    sample_posterior_weight_flat (WSample.asArray [[[5]]]) [0, 0]
        (fun a _ => a) (fun q => q) =
      Except.ok ((fun (a : Arr3) (_ : Vec) => a) [[[5]]]
        ([0, 0].map (fun q => q))) :=
  weight_flat_check_only_for_list_input [[[5]]] [[[5]]] [0, 0]
    (fun a _ => a) (fun q => q) (by decide)

/-- C6: in both `model_flat` and `model_tailfree` the observation `y` is a
multivariate Gaussian whose mean is the ensemble mean plus the residual
GP draw, and whose covariance is diagonal with every diagonal entry
`exp(2*sigma)` — i.e. scale `exp(sigma)` times the identity — for every
value of the latent `sigma` (here: for every environment, given the
defining identity of the exponential at the drawn `sigma`). -/
theorem observation_gaussian_diag_exp_two_sigma (n : ℕ)
    (basePred : List (String × Vec)) (tree : FamilyTree)
    (linkFunc : Mat → ℚ → Mat) (pexp : ℚ → ℚ) (env : Env)
    (hdim : ∀ kv ∈ basePred, kv.2.length = n)
    (hexp : pexp (env.scal "sigma" + env.scal "sigma") =
      pexp (env.scal "sigma") * pexp (env.scal "sigma")) :
    ∃ yf yt,
      (model_flat n basePred none linkFunc pexp env).2 = Except.ok yf ∧
      (model_tailfree n basePred tree linkFunc pexp env).2 = Except.ok yt ∧
      yf.loc = addVec
        (rowSumProduct (stackT (basePred.map (fun kv => kv.2)) n)
          (linkFunc (stackT ((flatWeightNames basePred).map env.vec) n)
            (pexp (env.scal "temp"))))
        (env.vec "ensemble_resid") ∧
      yt.loc = addVec
        (rowSumProduct
          (stackT ((tailfreePrior n tree linkFunc pexp env).2.2.map
            (lookupVec basePred)) n)
          (tailfreePrior n tree linkFunc pexp env).2.1)
        (env.vec "ensemble_resid") ∧
      yf.scaleIdentityMultiplier = pexp (env.scal "sigma") ∧
      yt.scaleIdentityMultiplier = pexp (env.scal "sigma") ∧
      (∀ i, yf.cov i i = pexp (2 * env.scal "sigma")) ∧
      (∀ i, yt.cov i i = pexp (2 * env.scal "sigma")) ∧
      (∀ i j, i ≠ j → yf.cov i j = 0) ∧
      (∀ i j, i ≠ j → yt.cov i j = 0) := by
  have hcov : pexp (2 * env.scal "sigma") =
      pexp (env.scal "sigma") * pexp (env.scal "sigma") := by
    rw [two_mul]
    exact hexp
  refine ⟨⟨addVec
      (rowSumProduct (stackT (basePred.map (fun kv => kv.2)) n)
        (linkFunc (stackT ((flatWeightNames basePred).map env.vec) n)
          (pexp (env.scal "temp"))))
      (env.vec "ensemble_resid"), pexp (env.scal "sigma")⟩,
    ⟨addVec
      (rowSumProduct
        (stackT ((tailfreePrior n tree linkFunc pexp env).2.2.map
          (lookupVec basePred)) n)
        (tailfreePrior n tree linkFunc pexp env).2.1)
      (env.vec "ensemble_resid"), pexp (env.scal "sigma")⟩,
    ?_, ?_, rfl, rfl, rfl, rfl, ?_, ?_, ?_, ?_⟩
  · simp [model_flat, checkBasePred_ok hdim, sparse_conditional_weight, truthy]
  · simp [model_tailfree, checkBasePred_ok hdim]
  · intro i
    simp [MVNDiag.cov, hcov]
  · intro i
    simp [MVNDiag.cov, hcov]
  · intro i j hij
    simp [MVNDiag.cov, hij]
  · intro i j hij
    simp [MVNDiag.cov, hij]

/-- Witness for C6: one model at one point, identity link, constant-one
exponential (which satisfies the exponential identity at the drawn
sigma). -/
theorem observation_gaussian_diag_exp_two_sigma_witness :
    ∃ yf yt,
      (model_flat 1 [("a", [2])] none (fun m _ => m) (fun _ => 1)
          ⟨fun _ => [0], fun _ => 0⟩).2 = Except.ok yf ∧
      (model_tailfree 1 [("a", [2])] [("root", ["a"])] (fun m _ => m)
          (fun _ => 1) ⟨fun _ => [0], fun _ => 0⟩).2 = Except.ok yt ∧
      yf.loc = addVec
        (rowSumProduct (stackT ([("a", ([2] : Vec))].map (fun kv => kv.2)) 1)
          ((fun (m : Mat) (_ : ℚ) => m)
            (stackT ((flatWeightNames [("a", [2])]).map
              (Env.vec ⟨fun _ => [0], fun _ => 0⟩)) 1)
            ((fun (_ : ℚ) => (1 : ℚ))
              (Env.scal ⟨fun _ => [0], fun _ => 0⟩ "temp"))))
        (Env.vec ⟨fun _ => [0], fun _ => 0⟩ "ensemble_resid") ∧
      yt.loc = addVec
        (rowSumProduct
          (stackT ((tailfreePrior 1 [("root", ["a"])] (fun m _ => m)
            (fun _ => 1) ⟨fun _ => [0], fun _ => 0⟩).2.2.map
            (lookupVec [("a", [2])])) 1)
          (tailfreePrior 1 [("root", ["a"])] (fun m _ => m) (fun _ => 1)
            ⟨fun _ => [0], fun _ => 0⟩).2.1)
        (Env.vec ⟨fun _ => [0], fun _ => 0⟩ "ensemble_resid") ∧
      yf.scaleIdentityMultiplier = 1 ∧
      yt.scaleIdentityMultiplier = 1 ∧
      (∀ i, yf.cov i i = 1) ∧
      (∀ i, yt.cov i i = 1) ∧
      (∀ i j, i ≠ j → yf.cov i j = 0) ∧
      (∀ i j, i ≠ j → yt.cov i j = 0) :=
  observation_gaussian_diag_exp_two_sigma 1 [("a", [2])] [("root", ["a"])]
    (fun m _ => m) (fun _ => 1) ⟨fun _ => [0], fun _ => 0⟩
    (by decide) (by norm_num)

lemma compute_leaf_weights_fst_length (n : ℕ) (nw : List (String × Mat))
    (tree : FamilyTree) : (compute_leaf_weights n nw tree).1.length = n := by
  simp [compute_leaf_weights]

lemma reordered_mean_getD (names : List String) (bp : List (String × Vec))
    (w : Mat) {n i : ℕ} (hi : i < n) (hw : i < w.length) :
    (rowSumProduct (stackT (names.map (lookupVec bp)) n) w).getD i 0 =
      dotQ (names.map (fun nm => (lookupVec bp nm).getD i 0)) (w.getD i []) := by
  rw [rowSumProduct_getD _ _ (by simpa [stackT_length] using hi) hw,
    stackT_getD _ hi, List.map_map]
  rfl

/-- C8: `sample_posterior_tailfree` returns exactly the five components
(full posterior sample, posterior mean, leaf-weight matrix,
conditional-weight dict, ordered leaf-name list), in that order, with
the full posterior sample equal to the posterior mean plus the supplied
residual draw, elementwise at every evaluation point. -/
theorem sample_posterior_tailfree_components (n : ℕ)
    (basePredDict : List (String × Vec)) (tree : FamilyTree)
    (weightGpDict : List (String × Vec)) (tempDict : List (String × ℚ))
    (resid : Vec) (linkFunc : Mat → ℚ → Mat) (pexp : ℚ → ℚ)
    (hres : resid.length = n) :
    ∃ cond lw mean,
      cond = compute_cond_weights n tree (lookupVec weightGpDict)
        (lookupScal tempDict) linkFunc pexp ∧
      lw = compute_leaf_weights n cond tree ∧
      mean = rowSumProduct (stackT (lw.2.map (lookupVec basePredDict)) n) lw.1 ∧
      sample_posterior_tailfree n basePredDict tree weightGpDict tempDict resid
          linkFunc pexp =
        (addVec mean resid, mean, lw.1, cond, lw.2) ∧
      ∀ i < n,
        (sample_posterior_tailfree n basePredDict tree weightGpDict tempDict
            resid linkFunc pexp).1.getD i 0 =
          mean.getD i 0 + resid.getD i 0 := by
  refine ⟨_, _, _, rfl, rfl, rfl, rfl, fun i hi => ?_⟩
  have hmean : (rowSumProduct
      (stackT (((compute_leaf_weights n
        (compute_cond_weights n tree (lookupVec weightGpDict)
          (lookupScal tempDict) linkFunc pexp) tree).2.map
        (lookupVec basePredDict))) n)
      (compute_leaf_weights n
        (compute_cond_weights n tree (lookupVec weightGpDict)
          (lookupScal tempDict) linkFunc pexp) tree).1).length = n := by
    simp [rowSumProduct, List.length_zipWith, stackT_length,
      compute_leaf_weights_fst_length]
  exact addVec_getD _ _ (by omega) (by omega)

/-- Witness for C8: two base models under a flat tree at one evaluation
point, with a nonzero residual draw. -/
theorem sample_posterior_tailfree_components_witness :
    ∃ cond lw mean,
      cond = compute_cond_weights 1 [("root", ["a", "b"])]
        (lookupVec [("a", [3]), ("b", [4])]) (lookupScal [("root", 0)])
        (fun m _ => m) (fun q => q) ∧
      lw = compute_leaf_weights 1 cond [("root", ["a", "b"])] ∧
      mean = rowSumProduct
        (stackT (lw.2.map (lookupVec [("a", [10]), ("b", [20])])) 1) lw.1 ∧
      sample_posterior_tailfree 1 [("a", [10]), ("b", [20])]
          [("root", ["a", "b"])] [("a", [3]), ("b", [4])] [("root", 0)] [5]
          (fun m _ => m) (fun q => q) =
        (addVec mean [5], mean, lw.1, cond, lw.2) ∧
      ∀ i < 1,
        (sample_posterior_tailfree 1 [("a", [10]), ("b", [20])]
            [("root", ["a", "b"])] [("a", [3]), ("b", [4])] [("root", 0)] [5]
            (fun m _ => m) (fun q => q)).1.getD i 0 =
          mean.getD i 0 + [(5 : ℚ)].getD i 0 :=
  sample_posterior_tailfree_components 1 [("a", [10]), ("b", [20])]
    [("root", ["a", "b"])] [("a", [3]), ("b", [4])] [("root", 0)] [5]
    (fun m _ => m) (fun q => q) (by decide)

/-- C1: at every evaluation point, the predictive mean of `model_tailfree`
(the `loc` of `y`) and the full posterior sample of
`sample_posterior_tailfree` both equal the dot product of the
base-model prediction vector reordered to the returned leaf-name list
with the leaf-weight row at that point, plus the residual draw at that
point. -/
theorem ensemble_mean_is_reordered_dot (n : ℕ)
    (basePred basePredDict : List (String × Vec)) (tree : FamilyTree)
    (linkFunc : Mat → ℚ → Mat) (pexp : ℚ → ℚ) (env : Env)
    (weightGpDict : List (String × Vec)) (tempDict : List (String × ℚ))
    (resid : Vec)
    (hdim : ∀ kv ∈ basePred, kv.2.length = n)
    (henv : (env.vec "ensemble_resid").length = n)
    (hres : resid.length = n) :
    (∃ y, (model_tailfree n basePred tree linkFunc pexp env).2 = Except.ok y ∧
      ∀ i < n, y.loc.getD i 0 =
        dotQ ((tailfreePrior n tree linkFunc pexp env).2.2.map
            (fun nm => (lookupVec basePred nm).getD i 0))
          ((tailfreePrior n tree linkFunc pexp env).2.1.getD i []) +
        (env.vec "ensemble_resid").getD i 0) ∧
    ∀ i < n,
      (sample_posterior_tailfree n basePredDict tree weightGpDict tempDict
          resid linkFunc pexp).1.getD i 0 =
        dotQ ((sample_posterior_tailfree n basePredDict tree weightGpDict
              tempDict resid linkFunc pexp).2.2.2.2.map
            (fun nm => (lookupVec basePredDict nm).getD i 0))
          ((sample_posterior_tailfree n basePredDict tree weightGpDict tempDict
            resid linkFunc pexp).2.2.1.getD i []) +
        resid.getD i 0 := by
  constructor
  · refine ⟨⟨addVec
        (rowSumProduct
          (stackT ((tailfreePrior n tree linkFunc pexp env).2.2.map
            (lookupVec basePred)) n)
          (tailfreePrior n tree linkFunc pexp env).2.1)
        (env.vec "ensemble_resid"), pexp (env.scal "sigma")⟩,
      by simp [model_tailfree, checkBasePred_ok hdim], fun i hi => ?_⟩
    have hw : i < (tailfreePrior n tree linkFunc pexp env).2.1.length := by
      simpa [tailfreePrior, compute_leaf_weights_fst_length] using hi
    have hmlen : i < (rowSumProduct
        (stackT ((tailfreePrior n tree linkFunc pexp env).2.2.map
          (lookupVec basePred)) n)
        (tailfreePrior n tree linkFunc pexp env).2.1).length := by
      simp only [rowSumProduct, List.length_zipWith, stackT_length]
      omega
    rw [addVec_getD _ _ hmlen (by omega),
      reordered_mean_getD _ _ _ hi hw]
  · intro i hi
    have hw : i < (compute_leaf_weights n
        (compute_cond_weights n tree (lookupVec weightGpDict)
          (lookupScal tempDict) linkFunc pexp) tree).1.length := by
      simpa [compute_leaf_weights_fst_length] using hi
    have hmlen : i < (rowSumProduct
        (stackT (((compute_leaf_weights n
          (compute_cond_weights n tree (lookupVec weightGpDict)
            (lookupScal tempDict) linkFunc pexp) tree).2.map
          (lookupVec basePredDict))) n)
        (compute_leaf_weights n
          (compute_cond_weights n tree (lookupVec weightGpDict)
            (lookupScal tempDict) linkFunc pexp) tree).1).length := by
      simp only [rowSumProduct, List.length_zipWith, stackT_length,
        compute_leaf_weights_fst_length]
      omega
    show (addVec _ resid).getD i 0 = _
    rw [addVec_getD _ _ hmlen (by omega),
      reordered_mean_getD _ _ _ hi hw]
    rfl

/-- Witness for C1: two base models under a flat tree, one evaluation
point, identity link, residual draw 5. -/
theorem ensemble_mean_is_reordered_dot_witness :
    (∃ y, (model_tailfree 1 [("a", [10]), ("b", [20])] [("root", ["a", "b"])]
        (fun m _ => m) (fun q => q) ⟨fun _ => [7], fun _ => 0⟩).2 =
        Except.ok y ∧
      ∀ i < 1, y.loc.getD i 0 =
        dotQ ((tailfreePrior 1 [("root", ["a", "b"])] (fun m _ => m)
            (fun q => q) ⟨fun _ => [7], fun _ => 0⟩).2.2.map
            (fun nm => (lookupVec [("a", [10]), ("b", [20])] nm).getD i 0))
          ((tailfreePrior 1 [("root", ["a", "b"])] (fun m _ => m) (fun q => q)
            ⟨fun _ => [7], fun _ => 0⟩).2.1.getD i []) +
        ((Env.vec ⟨fun _ => [7], fun _ => 0⟩) "ensemble_resid").getD i 0) ∧
    ∀ i < 1,
      (sample_posterior_tailfree 1 [("a", [10]), ("b", [20])]
          [("root", ["a", "b"])] [("a", [3]), ("b", [4])] [("root", 0)] [5]
          (fun m _ => m) (fun q => q)).1.getD i 0 =
        dotQ ((sample_posterior_tailfree 1 [("a", [10]), ("b", [20])]
              [("root", ["a", "b"])] [("a", [3]), ("b", [4])] [("root", 0)] [5]
              (fun m _ => m) (fun q => q)).2.2.2.2.map
            (fun nm => (lookupVec [("a", [10]), ("b", [20])] nm).getD i 0))
          ((sample_posterior_tailfree 1 [("a", [10]), ("b", [20])]
            [("root", ["a", "b"])] [("a", [3]), ("b", [4])] [("root", 0)] [5]
            (fun m _ => m) (fun q => q)).2.2.1.getD i []) +
        [(5 : ℚ)].getD i 0 :=
  ensemble_mean_is_reordered_dot 1 [("a", [10]), ("b", [20])]
    [("a", [10]), ("b", [20])] [("root", ["a", "b"])] (fun m _ => m)
    (fun q => q) ⟨fun _ => [7], fun _ => 0⟩ [("a", [3]), ("b", [4])]
    [("root", 0)] [5] (by decide) (by decide) (by decide)

/-- A matrix whose every row is a probability vector: the row sums to 1
and every entry lies in `[0, 1]`. -/
def rowStochastic (m : Mat) : Prop :=
  ∀ row ∈ m, row.sum = 1 ∧ ∀ x ∈ row, 0 ≤ x ∧ x ≤ 1

/-- Modelled from the spec: the link-function contract — the output has
the shape of the input, and whenever the input has no empty row, every
output row is a probability vector (the sparse-softmax body lives
outside this repository snapshot). -/
def LinkContract (link : Mat → ℚ → Mat) : Prop :=
  ∀ logits t, (link logits t).length = logits.length ∧
    (∀ i, ((link logits t).getD i []).length = (logits.getD i []).length) ∧
    ((∀ row ∈ logits, row ≠ []) → rowStochastic (link logits t))

/-- The subtree below a node has depth at most `fuel` (in particular, no
cycle passes through the node). -/
def treeDepthOK (tree : FamilyTree) : ℕ → String → Bool
  | 0, node => (childrenOf tree node).isNone
  | fuel + 1, node =>
    match childrenOf tree node with
    | none => true
    | some cs => cs.all (treeDepthOK tree fuel)

/-- A valid family tree for weight composition: its depth from the root is
within the fuel `compute_leaf_weights` uses, and every parent has at
least one child. -/
def TreeOK (tree : FamilyTree) : Prop :=
  treeDepthOK tree tree.length ROOT_NODE_DEFAULT_NAME = true ∧
  ∀ pc ∈ tree, pc.2 ≠ []

/-- The conditional-weight facts the leaf-weight recursion needs at every
parent: matrix of the right shape, rows of width `num_children`,
row-stochastic. -/
def CondProps (n : ℕ) (tree : FamilyTree) (cond : String → Mat) : Prop :=
  ∀ p cs, childrenOf tree p = some cs →
    (cond p).length = n ∧
    (∀ i, i < n → ((cond p).getD i []).length = cs.length) ∧
    rowStochastic (cond p)

lemma map_getD_range {α : Type} (l : List α) (d : α) :
    (List.range l.length).map (fun j => l.getD j d) = l := by
  refine List.ext_getElem (by simp) (fun i h1 h2 => ?_)
  simp only [List.getElem_map, List.getElem_range]
  exact List.getD_eq_getElem l d h2

lemma exists_of_mem_zipWith {f : ℚ → ℚ → ℚ} :
    ∀ {a b : Vec} {x : ℚ}, x ∈ List.zipWith f a b →
      ∃ u ∈ a, ∃ v ∈ b, x = f u v
  | [], _, _, h => by simp at h
  | _ :: _, [], _, h => by simp at h
  | u :: us, v :: vs, x, h => by
    rw [List.zipWith_cons_cons] at h
    rcases List.mem_cons.mp h with h1 | h2
    · exact ⟨u, List.mem_cons_self .., v, List.mem_cons_self .., h1⟩
    · obtain ⟨u2, hu, v2, hv, hx⟩ := exists_of_mem_zipWith h2
      exact ⟨u2, List.mem_cons_of_mem _ hu, v2, List.mem_cons_of_mem _ hv, hx⟩

lemma getD_bounds {l : Vec} (j : ℕ) (h : ∀ x ∈ l, 0 ≤ x ∧ x ≤ 1) :
    0 ≤ l.getD j 0 ∧ l.getD j 0 ≤ 1 := by
  by_cases hj : j < l.length
  · exact h _ (by rw [List.getD_eq_getElem _ _ hj]; exact List.getElem_mem hj)
  · rw [List.getD_eq_default _ _ (by omega)]
    norm_num

lemma childrenOf_eq_some {tree : FamilyTree} {p : String} {cs : List String}
    (h : childrenOf tree p = some cs) :
    ∃ pc, tree.find? (fun kv => kv.1 == p) = some pc ∧ pc ∈ tree ∧
      pc.1 = p ∧ pc.2 = cs := by
  unfold childrenOf at h
  cases hf : tree.find? (fun kv => kv.1 == p) with
  | none => rw [hf] at h; simp at h
  | some pc =>
    rw [hf] at h
    simp only [Option.map_some'] at h
    have hbeq := List.find?_some hf
    exact ⟨pc, rfl, List.mem_of_find?_eq_some hf, by simpa using hbeq,
      by injection h⟩

lemma lookupMat_compute_cond {n : ℕ} {tree : FamilyTree} {raw : String → Vec}
    {ptemp : String → ℚ} {link : Mat → ℚ → Mat} {pexp : ℚ → ℚ}
    {p : String} {pc : String × List String}
    (hf : tree.find? (fun kv => kv.1 == p) = some pc) :
    lookupMat (compute_cond_weights n tree raw ptemp link pexp) p =
      link (stackT (pc.2.map raw) n) (pexp (ptemp pc.1)) := by
  unfold lookupMat compute_cond_weights
  rw [List.find?_map]
  have hcomp : ((fun kv : String × Mat => kv.1 == p) ∘
      (fun pc2 : String × List String =>
        (pc2.1, link (stackT (pc2.2.map raw) n) (pexp (ptemp pc2.1))))) =
      (fun kv : String × List String => kv.1 == p) := rfl
  rw [hcomp, hf]
  rfl

lemma leafWeightsFrom_sum {n : ℕ} {tree : FamilyTree} {cond : String → Mat}
    (hcond : CondProps n tree cond) :
    ∀ (fuel : ℕ) (node : String) (acc : Vec),
      treeDepthOK tree fuel node = true → acc.length = n →
      ∀ i, i < n →
      ((leafWeightsFrom tree cond fuel node acc).map
        (fun lv => lv.2.getD i 0)).sum = acc.getD i 0 := by
  intro fuel
  induction fuel with
  | zero =>
    intro node acc hdepth _ i _
    have hc : childrenOf tree node = none := by
      simpa [treeDepthOK, Option.isNone_iff_eq_none] using hdepth
    simp [leafWeightsFrom, hc]
  | succ fuel ih =>
    intro node acc hdepth hacc i hi
    cases hc : childrenOf tree node with
    | none => simp [leafWeightsFrom, hc]
    | some cs =>
      have hall : ∀ c ∈ cs, treeDepthOK tree fuel c = true := by
        simp only [treeDepthOK, hc, List.all_eq_true] at hdepth
        exact hdepth
      obtain ⟨hMlen, hMrow, hMstoch⟩ := hcond node cs hc
      have hstep : ∀ j ∈ List.range cs.length,
          ((leafWeightsFrom tree cond fuel (cs.getD j "")
            (mulVec acc (colOf (cond node) j))).map
            (fun lv => lv.2.getD i 0)).sum =
          acc.getD i 0 * ((cond node).getD i []).getD j 0 := by
        intro j hj
        have hjlt : j < cs.length := List.mem_range.mp hj
        have hchild : cs.getD j "" ∈ cs := by
          rw [List.getD_eq_getElem _ _ hjlt]
          exact List.getElem_mem hjlt
        have hacc2 : (mulVec acc (colOf (cond node) j)).length = n := by
          rw [mulVec_length, colOf_length, hMlen, hacc]
          simp
        rw [ih (cs.getD j "") _ (hall _ hchild) hacc2 i hi,
          mulVec_getD _ _ (by omega) (by rw [colOf_length, hMlen]; omega),
          colOf_getD _ j (by rw [hMlen]; omega)]
      have hrow : (cond node).getD i [] ∈ cond node := by
        rw [List.getD_eq_getElem _ _ (by rw [hMlen]; omega)]
        exact List.getElem_mem _
      have hrowlen : ((cond node).getD i []).length = cs.length := hMrow i hi
      simp only [leafWeightsFrom, hc, List.map_flatten, List.sum_flatten,
        List.map_map]
      show ((List.range cs.length).map (fun j =>
        ((leafWeightsFrom tree cond fuel (cs.getD j "")
          (mulVec acc (colOf (cond node) j))).map
          (fun lv => lv.2.getD i 0)).sum)).sum = acc.getD i 0
      rw [List.map_congr_left hstep, List.sum_map_mul_left, ← hrowlen,
        map_getD_range, (hMstoch _ hrow).1, mul_one]

lemma leafWeightsFrom_entries {tree : FamilyTree} {cond : String → Mat}
    (hcond : ∀ p cs, childrenOf tree p = some cs → rowStochastic (cond p)) :
    ∀ (fuel : ℕ) (node : String) (acc : Vec),
      (∀ x ∈ acc, 0 ≤ x ∧ x ≤ 1) →
      ∀ lv ∈ leafWeightsFrom tree cond fuel node acc, ∀ x ∈ lv.2,
        0 ≤ x ∧ x ≤ 1 := by
  intro fuel
  induction fuel with
  | zero =>
    intro node acc hacc lv hlv x hx
    cases hc : childrenOf tree node with
    | none =>
      simp only [leafWeightsFrom, hc, List.mem_singleton] at hlv
      exact hacc x (by rw [hlv] at hx; exact hx)
    | some cs => simp [leafWeightsFrom, hc] at hlv
  | succ fuel ih =>
    intro node acc hacc lv hlv x hx
    cases hc : childrenOf tree node with
    | none =>
      simp only [leafWeightsFrom, hc, List.mem_singleton] at hlv
      exact hacc x (by rw [hlv] at hx; exact hx)
    | some cs =>
      simp only [leafWeightsFrom, hc, List.mem_flatten, List.mem_map] at hlv
      obtain ⟨inner, ⟨j, hj, rfl⟩, hmem⟩ := hlv
      have hacc2 : ∀ z ∈ mulVec acc (colOf (cond node) j), 0 ≤ z ∧ z ≤ 1 := by
        intro z hz
        obtain ⟨u, hu, v, hv, rfl⟩ := exists_of_mem_zipWith hz
        obtain ⟨r0, hr0, rfl⟩ := List.mem_map.mp hv
        have hub := hacc u hu
        have hvb : 0 ≤ r0.getD j 0 ∧ r0.getD j 0 ≤ 1 :=
          getD_bounds j (fun y hy => (hcond node cs hc r0 hr0).2 y hy)
        exact ⟨mul_nonneg hub.1 hvb.1, mul_le_one₀ hub.2 hvb.1 hvb.2⟩
      exact ih (cs.getD j "") (mulVec acc (colOf (cond node) j)) hacc2 lv hmem
        x hx

/-- C2: for every valid family tree and every set of raw weight and
temperature draws, the per-leaf ensemble-weight matrix produced inside
`sample_posterior_tailfree` (via the spec-modelled
`compute_leaf_weights` composing link-produced conditional weights along
root-to-leaf paths) is row-stochastic: at every evaluation point the row
sums to exactly 1 and every entry lies in `[0, 1]`. -/
theorem posterior_leaf_weights_row_stochastic (n : ℕ)
    (basePredDict : List (String × Vec)) (tree : FamilyTree)
    (weightGpDict : List (String × Vec)) (tempDict : List (String × ℚ))
    (resid : Vec) (linkFunc : Mat → ℚ → Mat) (pexp : ℚ → ℚ)
    (hlink : LinkContract linkFunc) (htree : TreeOK tree) :
    rowStochastic ((sample_posterior_tailfree n basePredDict tree weightGpDict
      tempDict resid linkFunc pexp).2.2.1) := by
  have hcondP : CondProps n tree (lookupMat (compute_cond_weights n tree
      (lookupVec weightGpDict) (lookupScal tempDict) linkFunc pexp)) := by
    intro p cs hc
    obtain ⟨pc, hf, hmem, hp1, hp2⟩ := childrenOf_eq_some hc
    rw [lookupMat_compute_cond hf]
    obtain ⟨hl1, hl2, hl3⟩ := hlink (stackT (pc.2.map (lookupVec weightGpDict)) n)
      (pexp (lookupScal tempDict pc.1))
    refine ⟨by rw [hl1, stackT_length], fun i hi => ?_, ?_⟩
    · rw [hl2 i, stackT_getD _ hi]
      simp [hp2]
    · apply hl3
      intro r hr
      have hlen := stackT_row_length _ _ hr
      have hcs : cs ≠ [] := htree.2 pc hmem ∘ (by rw [hp2]; exact id)
      intro hemp
      apply hcs
      rw [← hp2]
      have : r.length = 0 := by rw [hemp]; rfl
      rw [hlen] at this
      simpa using List.length_eq_zero.mp this
  intro row hrow
  have hrow2 : ∃ i ∈ List.range n, row =
      (leafWeightsFrom tree (lookupMat (compute_cond_weights n tree
        (lookupVec weightGpDict) (lookupScal tempDict) linkFunc pexp))
        tree.length ROOT_NODE_DEFAULT_NAME (onesVec n)).map
        (fun lv => lv.2.getD i 0) := by
    obtain ⟨i, hi, hr⟩ := List.mem_map.mp hrow
    exact ⟨i, hi, hr.symm⟩
  obtain ⟨i, hi, rfl⟩ := hrow2
  have hin : i < n := List.mem_range.mp hi
  constructor
  · rw [leafWeightsFrom_sum hcondP tree.length ROOT_NODE_DEFAULT_NAME
      (onesVec n) htree.1 (by simp [onesVec]) i hin]
    rw [onesVec, List.getD_eq_getElem _ _ (by simpa using hin)]
    exact List.getElem_replicate ..
  · intro x hx
    obtain ⟨lv, hlv, rfl⟩ := List.mem_map.mp hx
    refine getD_bounds i (fun y hy => ?_)
    refine leafWeightsFrom_entries (fun p cs hc => (hcondP p cs hc).2.2)
      tree.length ROOT_NODE_DEFAULT_NAME (onesVec n) ?_ lv hlv y hy
    intro z hz
    rw [List.eq_of_mem_replicate hz]
    norm_num

/-- A concrete sparsity-style link function satisfying the link contract:
all mass on the first child. -/
def linkOneHot : Mat → ℚ → Mat := fun logits _ =>
  logits.map (fun row =>
    match row with
    | [] => []
    | _ :: rest => 1 :: rest.map (fun _ => 0))

lemma linkOneHot_row (row : Vec) :
    (match row with
      | [] => ([] : Vec)
      | _ :: rest => 1 :: rest.map (fun _ => 0)).length = row.length := by
  cases row <;> simp

lemma linkOneHot_contract : LinkContract linkOneHot := by
  intro logits t
  refine ⟨by simp [linkOneHot], fun i => ?_, fun hne => ?_⟩
  · by_cases hi : i < logits.length
    · rw [List.getD_eq_getElem _ _ (by simpa [linkOneHot] using hi),
        List.getD_eq_getElem _ _ hi]
      simp only [linkOneHot, List.getElem_map]
      exact linkOneHot_row _
    · rw [List.getD_eq_default _ _ (by simpa [linkOneHot] using (by omega :
        logits.length ≤ i)), List.getD_eq_default _ _ (by omega)]
  · intro row hrow
    simp only [linkOneHot, List.mem_map] at hrow
    obtain ⟨r0, hr0, rfl⟩ := hrow
    have hne0 : r0 ≠ [] := hne r0 hr0
    cases r0 with
    | nil => exact absurd rfl hne0
    | cons a rest =>
      refine ⟨?_, ?_⟩
      · have hz : (rest.map (fun _ => (0 : ℚ))).sum = 0 := by
          induction rest with
          | nil => rfl
          | cons b bs ihb => simp [ihb]
        simp [hz]
      · intro x hx
        rcases List.mem_cons.mp hx with h1 | h2
        · rw [h1]; norm_num
        · obtain ⟨_, _, rfl⟩ := List.mem_map.mp h2
          norm_num

/-- Witness for C2: a two-level tree over three leaf models, the one-hot
link, and concrete draws. -/
theorem posterior_leaf_weights_row_stochastic_witness :
    rowStochastic ((sample_posterior_tailfree 2
      [("m1", [1, 2]), ("m2", [3, 4]), ("b", [5, 6])]
      [("root", ["g1", "b"]), ("g1", ["m1", "m2"])]
      [("g1", [1, 1]), ("b", [0, 0]), ("m1", [2, 2]), ("m2", [3, 3])]
      [("root", 0), ("g1", 0)] [7, 7] linkOneHot (fun q => q)).2.2.1) :=
  posterior_leaf_weights_row_stochastic 2
    [("m1", [1, 2]), ("m2", [3, 4]), ("b", [5, 6])]
    [("root", ["g1", "b"]), ("g1", ["m1", "m2"])]
    [("g1", [1, 1]), ("b", [0, 0]), ("m1", [2, 2]), ("m2", [3, 3])]
    [("root", 0), ("g1", 0)] [7, 7] linkOneHot (fun q => q)
    linkOneHot_contract ⟨by decide, by decide⟩

lemma flatten_map_singleton {α β : Type} (l : List α) (g : α → β) :
    (l.map (fun x => [g x])).flatten = l.map g := by
  induction l with
  | nil => rfl
  | cons a as iha => simp [iha]

lemma compute_leaf_weights_single_parent (n : ℕ) (names : List String)
    (M : Mat) (nw : List (String × Mat)) (hM : M.length = n)
    (hMrow : ∀ i, i < n → (M.getD i []).length = names.length)
    (hroot : ROOT_NODE_DEFAULT_NAME ∉ names)
    (hnw : lookupMat nw ROOT_NODE_DEFAULT_NAME = M) :
    compute_leaf_weights n nw [(ROOT_NODE_DEFAULT_NAME, names)] = (M, names) := by
  have hchild_root : childrenOf [(ROOT_NODE_DEFAULT_NAME, names)]
      ROOT_NODE_DEFAULT_NAME = some names := by
    simp [childrenOf]
  have hchild_leaf : ∀ c ∈ names,
      childrenOf [(ROOT_NODE_DEFAULT_NAME, names)] c = none := by
    intro c hc
    have hne2 : (ROOT_NODE_DEFAULT_NAME == c) = false :=
      beq_eq_false_iff_ne.mpr (fun h => hroot (h ▸ hc))
    simp [childrenOf, List.find?, hne2]
  have hleaves : leafWeightsFrom [(ROOT_NODE_DEFAULT_NAME, names)]
      (lookupMat nw) 1 ROOT_NODE_DEFAULT_NAME (onesVec n) =
      (List.range names.length).map
        (fun j => (names.getD j "", mulVec (onesVec n) (colOf M j))) := by
    simp only [leafWeightsFrom, hchild_root, hnw]
    rw [← flatten_map_singleton (List.range names.length)
      (fun j => (names.getD j "", mulVec (onesVec n) (colOf M j)))]
    congr 1
    refine List.map_congr_left (fun j hj => ?_)
    have hjlt := List.mem_range.mp hj
    have hjn : names.getD j "" ∈ names := by
      rw [List.getD_eq_getElem _ _ hjlt]
      exact List.getElem_mem hjlt
    simp only [leafWeightsFrom, hchild_leaf _ hjn]
  show ((List.range n).map (fun i =>
      (leafWeightsFrom [(ROOT_NODE_DEFAULT_NAME, names)] (lookupMat nw) 1
        ROOT_NODE_DEFAULT_NAME (onesVec n)).map (fun lv => lv.2.getD i 0)),
    (leafWeightsFrom [(ROOT_NODE_DEFAULT_NAME, names)] (lookupMat nw) 1
      ROOT_NODE_DEFAULT_NAME (onesVec n)).map (fun lv => lv.1)) = (M, names)
  rw [hleaves]
  simp only [Prod.mk.injEq]
  constructor
  · refine List.ext_getElem (by simp [hM]) (fun i h1 h2 => ?_)
    have hin : i < n := by simpa using h1
    have hiM : i < M.length := by omega
    refine List.ext_getElem ?_ (fun j g1 g2 => ?_)
    · simp only [List.getElem_map, List.getElem_range, List.length_map,
        List.length_range]
      rw [← hMrow i hin, List.getD_eq_getElem _ _ hiM]
    · simp only [List.getElem_map, List.getElem_range]
      have hone : i < (onesVec n).length := by
        simpa [onesVec] using hin
      have hcol : i < (colOf M j).length := by
        rw [colOf_length]
        omega
      have hrowb : j < (M.getD i []).length := by
        rw [List.getD_eq_getElem _ _ hiM]
        exact g2
      rw [mulVec_getD _ _ hone hcol, colOf_getD _ j hiM]
      have hones : (onesVec n).getD i 0 = 1 := by
        rw [show onesVec n = List.replicate n (1 : ℚ) from rfl,
          List.getD_eq_getElem _ _ (by simpa using hin)]
        exact List.getElem_replicate ..
      rw [hones, one_mul, List.getD_eq_getElem _ _ hrowb]
      have hMg : M.getD i [] = M[i] := List.getD_eq_getElem _ _ hiM
      simp only [hMg]
  · refine List.ext_getElem (by simp) (fun j h1 h2 => ?_)
    simp only [List.getElem_map, List.getElem_range]
    exact List.getD_eq_getElem names "" h2

/-- C5: on a flat configuration the flat helper is the same computation as
the general tail-free path on the single-parent, all-leaf-children tree:
given the same raw weight draws and the same shared temperature draw,
`sparse_conditional_weight` returns exactly the leaf-weight matrix
`tailfreePrior` produces on `{root: [all base models]}` — one weight GP
per base model (identical declared names), one temperature, one
application of the link function — and the tail-free leaf names come
back in base-model dict order. -/
theorem flat_weights_equal_tailfree_single_parent (n : ℕ)
    (basePred : List (String × Vec)) (linkFunc : Mat → ℚ → Mat)
    (pexp : ℚ → ℚ) (env : Env) (hlink : LinkContract linkFunc)
    (hroot : ROOT_NODE_DEFAULT_NAME ∉ basePred.map (fun kv => kv.1))
    (htemp : env.scal ("temp_" ++ ROOT_NODE_DEFAULT_NAME) = env.scal "temp") :
    (sparse_conditional_weight n basePred (env.scal "temp") none linkFunc pexp
        env).2 =
      Except.ok ((tailfreePrior n
        [(ROOT_NODE_DEFAULT_NAME, basePred.map (fun kv => kv.1))]
        linkFunc pexp env).2.1) ∧
    (tailfreePrior n [(ROOT_NODE_DEFAULT_NAME, basePred.map (fun kv => kv.1))]
        linkFunc pexp env).2.2 = basePred.map (fun kv => kv.1) ∧
    (tailfreePrior n [(ROOT_NODE_DEFAULT_NAME, basePred.map (fun kv => kv.1))]
        linkFunc pexp env).1 =
      ("temp_" ++ ROOT_NODE_DEFAULT_NAME) ::
        (sparse_conditional_weight n basePred (env.scal "temp") none linkFunc
          pexp env).1 := by
  obtain ⟨hl1, hl2, _⟩ := hlink
    (stackT ((basePred.map (fun kv => kv.1)).map
      (fun nd => env.vec ("base_weight_" ++ nd))) n)
    (pexp (env.scal ("temp_" ++ ROOT_NODE_DEFAULT_NAME)))
  have hM : (linkFunc
      (stackT ((basePred.map (fun kv => kv.1)).map
        (fun nd => env.vec ("base_weight_" ++ nd))) n)
      (pexp (env.scal ("temp_" ++ ROOT_NODE_DEFAULT_NAME)))).length = n := by
    rw [hl1, stackT_length]
  have hMrow : ∀ i, i < n → ((linkFunc
      (stackT ((basePred.map (fun kv => kv.1)).map
        (fun nd => env.vec ("base_weight_" ++ nd))) n)
      (pexp (env.scal ("temp_" ++ ROOT_NODE_DEFAULT_NAME)))).getD i []).length =
      (basePred.map (fun kv => kv.1)).length := by
    intro i hi
    rw [hl2 i, stackT_getD _ hi]
    simp
  have hlw := compute_leaf_weights_single_parent n
    (basePred.map (fun kv => kv.1))
    (linkFunc
      (stackT ((basePred.map (fun kv => kv.1)).map
        (fun nd => env.vec ("base_weight_" ++ nd))) n)
      (pexp (env.scal ("temp_" ++ ROOT_NODE_DEFAULT_NAME))))
    (compute_cond_weights n
      [(ROOT_NODE_DEFAULT_NAME, basePred.map (fun kv => kv.1))]
      (fun nd => env.vec ("base_weight_" ++ nd))
      (fun p => env.scal ("temp_" ++ p)) linkFunc pexp)
    hM hMrow hroot (by simp [lookupMat, compute_cond_weights, List.find?])
  refine ⟨?_, ?_, ?_⟩
  · show Except.ok (linkFunc
      (stackT ((flatWeightNames basePred).map env.vec) n)
      (pexp (env.scal "temp"))) = _
    show _ = Except.ok ((compute_leaf_weights n
      (compute_cond_weights n
        [(ROOT_NODE_DEFAULT_NAME, basePred.map (fun kv => kv.1))]
        (fun nd => env.vec ("base_weight_" ++ nd))
        (fun p => env.scal ("temp_" ++ p)) linkFunc pexp)
      [(ROOT_NODE_DEFAULT_NAME, basePred.map (fun kv => kv.1))]).1)
    rw [hlw, ← htemp]
    simp only [flatWeightNames, List.map_map]
    rfl
  · show (compute_leaf_weights n
      (compute_cond_weights n
        [(ROOT_NODE_DEFAULT_NAME, basePred.map (fun kv => kv.1))]
        (fun nd => env.vec ("base_weight_" ++ nd))
        (fun p => env.scal ("temp_" ++ p)) linkFunc pexp)
      [(ROOT_NODE_DEFAULT_NAME, basePred.map (fun kv => kv.1))]).2 = _
    rw [hlw]
  · show ["temp_" ++ ROOT_NODE_DEFAULT_NAME] ++
      ((([(ROOT_NODE_DEFAULT_NAME, basePred.map (fun kv => kv.1))].map
        (fun pc => pc.2)).flatten).map (fun nd => "base_weight_" ++ nd)) = _
    simp [flatWeightNames, List.map_map, Function.comp,
      sparse_conditional_weight, truthy]

/-- Witness for C5: two base models, the one-hot link, shared draws. -/
theorem flat_weights_equal_tailfree_single_parent_witness :
    (sparse_conditional_weight 1 [("a", [10]), ("b", [20])]
        (Env.scal ⟨fun _ => [3], fun _ => 2⟩ "temp") none linkOneHot
        (fun q => q) ⟨fun _ => [3], fun _ => 2⟩).2 =
      Except.ok ((tailfreePrior 1
        [(ROOT_NODE_DEFAULT_NAME,
          [("a", ([10] : Vec)), ("b", [20])].map (fun kv => kv.1))]
        linkOneHot (fun q => q) ⟨fun _ => [3], fun _ => 2⟩).2.1) ∧
    (tailfreePrior 1
        [(ROOT_NODE_DEFAULT_NAME,
          [("a", ([10] : Vec)), ("b", [20])].map (fun kv => kv.1))]
        linkOneHot (fun q => q) ⟨fun _ => [3], fun _ => 2⟩).2.2 =
      [("a", ([10] : Vec)), ("b", [20])].map (fun kv => kv.1) ∧
    (tailfreePrior 1
        [(ROOT_NODE_DEFAULT_NAME,
          [("a", ([10] : Vec)), ("b", [20])].map (fun kv => kv.1))]
        linkOneHot (fun q => q) ⟨fun _ => [3], fun _ => 2⟩).1 =
      ("temp_" ++ ROOT_NODE_DEFAULT_NAME) ::
        (sparse_conditional_weight 1 [("a", [10]), ("b", [20])]
          (Env.scal ⟨fun _ => [3], fun _ => 2⟩ "temp") none linkOneHot
          (fun q => q) ⟨fun _ => [3], fun _ => 2⟩).1 :=
  flat_weights_equal_tailfree_single_parent 1 [("a", [10]), ("b", [20])]
    linkOneHot (fun q => q) ⟨fun _ => [3], fun _ => 2⟩ linkOneHot_contract
    (by decide) (by decide)

end Calibre
